import Mathlib

/-!
Shallow embedding of the Project_Collab collaboration app's notification,
permission, username-generation and OAuth-linking logic, together with
theorems settling the specification claims about that logic.

Python semantics notes:
* usernames are modelled as `String` (they are unique keys of the user table);
* database tables are modelled as Lean lists of rows;
* `None`-able Python values are modelled with `Option`;
* the `\w` regex class is modelled over the ASCII alphabet as
  alphanumeric-or-underscore.
-/

namespace ProjectCollab

/-! ### Mention parser (apps/notifications/services.py, MentionParser) -/

/-- ASCII model of the regex class `\w`: letters, digits, underscore. -/
def isWordChar (c : Char) : Bool :=
  c.isAlphanum || c == '_'

/-- One step of the `re.findall(r'@(\w+)', text)` scan: at an `@` followed by
at least one word character, the maximal word-character run is the match and
scanning resumes after it; otherwise scanning advances one character.  The
`fuel` argument only bounds recursion depth; any `fuel ≥ length` is enough. -/
def mentionScan : Nat → List Char → List String
  | 0, _ => []
  | _ + 1, [] => []
  | fuel + 1, c :: rest =>
    if c == '@' && !(rest.takeWhile isWordChar).isEmpty then
      (rest.takeWhile isWordChar).asString :: mentionScan fuel (rest.dropWhile isWordChar)
    else
      mentionScan fuel rest

/-- All matches of the regex `@(\w+)` over a character list, in text order. -/
def mentionTokens (l : List Char) : List String :=
  mentionScan l.length l

/-- The deduplication loop of `MentionParser.extract_mentions`: a `seen` set
accumulates already-emitted names, later occurrences are skipped. -/
def uniquePreserveOrder (seen : List String) : List String → List String
  | [] => []
  | m :: ms =>
    if m ∈ seen then uniquePreserveOrder seen ms
    else m :: uniquePreserveOrder (m :: seen) ms

/-- `MentionParser.extract_mentions`: `None` or empty text gives `[]`;
otherwise all `@(\w+)` matches, duplicates removed keeping first occurrence. -/
def extract_mentions (text : Option String) : List String :=
  match text with
  | none => []
  | some t =>
    if t = "" then []
    else uniquePreserveOrder [] (mentionTokens t.data)

/-- Spec-side reading of "deduplicates while preserving first-occurrence
order": fold over the match list, appending each name not already kept. -/
def specDedupFirstOccurrence (l : List String) : List String :=
  l.foldl (fun acc m => if m ∈ acc then acc else acc ++ [m]) []

/-! ### Data model (apps/teams/models.py, apps/tasks/models.py,
apps/notifications/models.py) -/

/-- `TeamMembership.role` choices. -/
inductive Role
  | owner
  | member
deriving DecidableEq, Repr

/-- A `Team` row (creator denoted by username). -/
structure Team where
  id : Nat
  name : String
  createdBy : String
deriving DecidableEq, Repr

/-- A `TeamMembership` row, linking a user to a team with a role. -/
structure TeamMembership where
  team : Nat
  user : String
  role : Role
deriving DecidableEq, Repr

/-- A `Task` row; ORM navigation `task.team` is modelled by nesting. -/
structure Task where
  id : Nat
  title : String
  team : Team
  createdBy : String
  assignedTo : Option String
deriving DecidableEq, Repr

/-- A `Comment` row; ORM navigation `comment.task` is modelled by nesting. -/
structure Comment where
  id : Nat
  task : Task
  author : String
  content : String
deriving DecidableEq, Repr

/-- `Notification.notification_type` choices. -/
inductive NotifType
  | mention
  | assignment
  | comment
  | team_added
  | file_uploaded
deriving DecidableEq, Repr

/-- The generic foreign key `(content_type, object_id)` of a notification. -/
inductive Target
  | task (id : Nat)
  | comment (id : Nat)
  | team (id : Nat)
  | file (id : Nat)
deriving DecidableEq, Repr

/-- A freshly created `Notification` (read flag and pk not yet relevant). -/
structure Notification where
  recipient : String
  sender : String
  notification_type : NotifType
  message : String
  target : Target
deriving DecidableEq, Repr

/-- A persisted `Notification` row, as queried by the read-side services. -/
structure StoredNotification where
  nid : Nat
  recipient : String
  sender : String
  notification_type : NotifType
  message : String
  target : Target
  isRead : Bool
  createdAt : Int
deriving DecidableEq, Repr

/-- The slices of the database state the services query. -/
structure DB where
  users : List String
  memberships : List TeamMembership
deriving DecidableEq, Repr

/-! ### MentionParser.get_mentioned_users -/

/-- `MentionParser.get_mentioned_users`: usernames extracted from the text,
restricted to existing users and (when a team is given) to its members.
Returns usernames in user-table order, mirroring the queryset. -/
def get_mentioned_users (db : DB) (text : Option String) (team : Option Team) :
    List String :=
  let usernames := extract_mentions text
  if usernames.isEmpty then []
  else
    let users := db.users.filter (fun u => u ∈ usernames)
    match team with
    | none => users
    | some t =>
      let memberIds := (db.memberships.filter (fun m => m.team = t.id)).map TeamMembership.user
      users.filter (fun u => u ∈ memberIds)

/-! ### NotificationService -/

/-- `NotificationService.create_notification`. -/
def create_notification (recipient sender : String) (ntype : NotifType)
    (message : String) (target : Target) : Notification :=
  { recipient := recipient, sender := sender, notification_type := ntype,
    message := message, target := target }

/-- Message text of a mention notification. -/
def mentionMessage (c : Comment) : String :=
  c.author ++ " mentioned you in a comment on \x27" ++ c.task.title ++ "\x27"

/-- The loop body of `create_mention_notifications`: one notification per
mentioned user other than the comment's author, in order. -/
def mentionLoop (c : Comment) : List String → List Notification
  | [] => []
  | u :: us =>
    if u ≠ c.author then
      create_notification u c.author NotifType.mention (mentionMessage c)
        (Target.comment c.id) :: mentionLoop c us
    else
      mentionLoop c us

/-- `NotificationService.create_mention_notifications`. -/
def create_mention_notifications (db : DB) (c : Comment) : List Notification :=
  mentionLoop c (get_mentioned_users db (some c.content) (some c.task.team))

/-- Message text of an assignment notification with a given assigner. -/
def assignmentMessage (assigner : String) (t : Task) : String :=
  assigner ++ " assigned you to task \x27" ++ t.title ++ "\x27"

/-- `NotificationService.create_assignment_notification`. -/
def create_assignment_notification (task : Task) : Option Notification :=
  match task.assignedTo with
  | none => none
  | some a =>
    if a = task.createdBy then none
    else
      some (create_notification a task.createdBy NotifType.assignment
        (assignmentMessage task.createdBy task) (Target.task task.id))

/-- `NotificationService.mark_as_read`: fetch by `(id, recipient=user)`; when
found, set the read flag and persist by primary key; when not found, return
`None` leaving the table unchanged. -/
def mark_as_read (db : List StoredNotification) (nid : Nat) (user : String) :
    Option StoredNotification × List StoredNotification :=
  match db.find? (fun n => n.nid == nid && n.recipient == user) with
  | none => (none, db)
  | some n =>
    let upd := { n with isRead := true }
    (some upd, db.map (fun m => if m.nid == n.nid then upd else m))

/-! ### EmailService.get_pending_notifications -/

/-- The `order_by('created_at')` ordering on stored notifications. -/
def notifLE (a b : StoredNotification) : Prop :=
  a.createdAt ≤ b.createdAt

instance : DecidableRel notifLE :=
  fun a b => Int.decLe a.createdAt b.createdAt

instance : IsTotal StoredNotification notifLE :=
  ⟨fun a b => Int.le_total a.createdAt b.createdAt⟩

instance : IsTrans StoredNotification notifLE :=
  ⟨fun _ _ _ h1 h2 => le_trans h1 h2⟩

/-- `EmailService.get_pending_notifications`: unread notifications of the
recipient created at or after `now - time_window` (window defaulting to the
`NOTIFICATION_BATCH_WINDOW` setting, itself defaulting to 300 seconds),
ordered by creation time ascending. -/
def get_pending_notifications (db : List StoredNotification) (user : String)
    (time_window : Option Int) (settingWindow : Option Int) (now : Int) :
    List StoredNotification :=
  let tw : Int :=
    match time_window with
    | some t => t
    | none =>
      match settingWindow with
      | some s => s
      | none => 300
  let cutoff := now - tw
  List.insertionSort notifLE
    (db.filter (fun n => n.recipient == user && !n.isRead && cutoff ≤ n.createdAt))

/-! ### Team creation signals (apps/teams/models.py) -/

/-- Object-level permissions on a `Team`. -/
inductive TeamPerm
  | view
  | change
  | delete
  | manage_members
deriving DecidableEq, Repr

/-- One `assign_perm(perm, user, team)` call. -/
structure TeamPermGrant where
  perm : TeamPerm
  user : String
  team : Nat
deriving DecidableEq, Repr

/-- `assign_membership_permissions` (post_save on `TeamMembership`): view for
every member, plus change/delete/manage_members for owners. -/
def assign_membership_permissions (m : TeamMembership) : List TeamPermGrant :=
  { perm := TeamPerm.view, user := m.user, team := m.team } ::
    (if m.role = Role.owner then
      [ { perm := TeamPerm.change, user := m.user, team := m.team },
        { perm := TeamPerm.delete, user := m.user, team := m.team },
        { perm := TeamPerm.manage_members, user := m.user, team := m.team } ]
    else [])

/-- `create_team_owner_membership` (post_save on `Team`): on creation, one
owner membership for the creator (whose own post_save hook fires first) and
then the four explicit permission grants to the creator. -/
def create_team_owner_membership (t : Team) (created : Bool) :
    List TeamMembership × List TeamPermGrant :=
  if created then
    let membership : TeamMembership :=
      { team := t.id, user := t.createdBy, role := Role.owner }
    ([membership],
      assign_membership_permissions membership ++
        [ { perm := TeamPerm.view, user := t.createdBy, team := t.id },
          { perm := TeamPerm.change, user := t.createdBy, team := t.id },
          { perm := TeamPerm.delete, user := t.createdBy, team := t.id },
          { perm := TeamPerm.manage_members, user := t.createdBy, team := t.id } ])
  else ([], [])

/-! ### Task creation signal (apps/tasks/models.py, log_task_creation_or_update) -/

/-- Object-level permissions on a `Task`. -/
inductive TaskPerm
  | view_task
  | change_task
  | delete_task
deriving DecidableEq, Repr

/-- One `assign_perm(perm, user, task)` call. -/
structure TaskPermGrant where
  perm : TaskPerm
  user : String
  task : Nat
deriving DecidableEq, Repr

/-- `assign_perm('tasks.view_task', u, task)`. -/
def taskViewGrant (task : Task) (u : String) : TaskPermGrant :=
  { perm := TaskPerm.view_task, user := u, task := task.id }

/-- `assign_perm('tasks.change_task', u, task)`. -/
def taskChangeGrant (task : Task) (u : String) : TaskPermGrant :=
  { perm := TaskPerm.change_task, user := u, task := task.id }

/-- `assign_perm('tasks.delete_task', u, task)`. -/
def taskDeleteGrant (task : Task) (u : String) : TaskPermGrant :=
  { perm := TaskPerm.delete_task, user := u, task := task.id }

/-- The permission loop of the `created` branch of
`log_task_creation_or_update`: every team member gets view; owners and the
task's creator additionally get change and delete. -/
def taskCreationPermLoop (task : Task) : List TeamMembership → List TaskPermGrant
  | [] => []
  | m :: ms =>
    taskViewGrant task m.user ::
      ((if m.role = Role.owner ∨ m.user = task.createdBy then
          [taskChangeGrant task m.user, taskDeleteGrant task m.user]
        else []) ++ taskCreationPermLoop task ms)

/-- Permission grants made when a task is created: the loop above over the
memberships of the task's team. -/
def log_task_created_perms (db : DB) (task : Task) : List TaskPermGrant :=
  taskCreationPermLoop task (db.memberships.filter (fun m => m.team == task.team.id))

/-- The assignment-notification decision of the update branch of
`log_task_creation_or_update`: notify only when an assignee is set, the
assignee changed, and the assignee is not the updating user. -/
def assignmentNotificationOnUpdate (task : Task) (oldAssigned : Option String)
    (updatingUser : String) : Option Notification :=
  match task.assignedTo with
  | none => none
  | some a =>
    if oldAssigned ≠ some a then
      if a ≠ updatingUser then
        some (create_notification a updatingUser NotifType.assignment
          (assignmentMessage updatingUser task) (Target.task task.id))
      else none
    else none

/-! ### File upload signal (apps/tasks/models.py, log_file_upload) -/

/-- The generic foreign key `content_object` of a `FileUpload`. -/
inductive AttachTarget
  | toTask (t : Task)
  | toComment (c : Comment)
deriving DecidableEq, Repr

/-- A `FileUpload` row. -/
structure FileUpload where
  id : Nat
  uploadedBy : String
  filename : String
  attachedTo : AttachTarget
deriving DecidableEq, Repr

/-- An `ActivityLog` row as created by the signal handlers. -/
structure ActivityEntry where
  taskId : Nat
  user : String
  action : String
deriving DecidableEq, Repr

/-- Message text of a file-upload notification. -/
def fileUploadMessage (f : FileUpload) (t : Task) : String :=
  f.uploadedBy ++ " uploaded \x27" ++ f.filename ++ "\x27 to task \x27" ++
    t.title ++ "\x27"

/-- `NotificationService.create_file_upload_notification`. -/
def create_file_upload_notification (f : FileUpload) (t : Task)
    (recipient : String) : Notification :=
  create_notification recipient f.uploadedBy NotifType.file_uploaded
    (fileUploadMessage f t) (Target.file f.id)

/-- The activity-log entry written by `log_file_upload`. -/
def fileUploadLog (f : FileUpload) (task : Task) : ActivityEntry :=
  { taskId := task.id, user := f.uploadedBy, action := "File uploaded" }

/-- The recipient set built by `log_file_upload` before the uploader is
discarded: the task's creator plus its assignee (a Python `set`, modelled as
a deduplicated list). -/
def fileUploadRecipients (task : Task) : List String :=
  match task.assignedTo with
  | some a =>
    if a = task.createdBy then [task.createdBy] else [task.createdBy, a]
  | none => [task.createdBy]

/-- `log_file_upload` (post_save on `FileUpload`): only uploads attached to a
`Task` are logged; the notified users are the recipient set minus the
uploader. -/
def log_file_upload (f : FileUpload) : Option ActivityEntry × List Notification :=
  match f.attachedTo with
  | AttachTarget.toComment _ => (none, [])
  | AttachTarget.toTask task =>
    let entry : ActivityEntry := fileUploadLog f task
    let recipients := (fileUploadRecipients task).filter (fun u => u ≠ f.uploadedBy)
    (some entry, recipients.map (create_file_upload_notification f task))

/-! ### Username generation (apps/accounts/adapters.py,
CustomAccountAdapter.generate_unique_username) -/

/-- `re.sub(r'[^\w]', '', username.lower())`: lowercase, then drop every
non-word character. -/
def cleanCandidate (s : String) : String :=
  ⟨(s.data.map Char.toLower).filter isWordChar⟩

/-- The base username before conflict resolution: the cleaned candidate,
replaced by `"user"` when empty, truncated to 25 characters. -/
def usernameBase (s : String) : String :=
  let cleaned := cleanCandidate s
  let base := if cleaned = "" then "user" else cleaned
  ⟨base.data.take 25⟩

/-- The `for i in range(1, 1000)` suffix search: the first `base ++ repr i`
not taken, scanning `i = start, start+1, …` while fuel lasts. -/
def trySuffix (existing : List String) (username : String) :
    Nat → Nat → Option String
  | 0, _ => none
  | fuel + 1, i =>
    if username ++ Nat.repr i ∈ existing then
      trySuffix existing username fuel (i + 1)
    else some (username ++ Nat.repr i)

/-- `CustomAccountAdapter.generate_unique_username`, taking as input the raw
candidate produced by the framework's default generator, the existing
usernames, and the formatted timestamp used by the last-resort branch. -/
def generate_unique_username (existing : List String) (candidate : String)
    (timestamp : String) : String :=
  let username := usernameBase candidate
  if username ∉ existing then username
  else
    match trySuffix existing username 999 1 with
    | some c => c
    | none => (⟨username.data.take 15⟩ : String) ++ "_" ++ timestamp

/-! ### OAuth identity linking (apps/accounts/adapters.py,
CustomSocialAccountAdapter.pre_social_login) -/

/-- A `User` row as seen by the OAuth linking code. -/
structure UserRec where
  username : String
  email : String
  dateJoined : Nat
deriving DecidableEq, Repr

/-- The state of the incoming `SocialLogin` object. -/
structure SocialLogin where
  isExisting : Bool
  provider : String
  email : Option String
deriving DecidableEq, Repr

/-- Outcome of `pre_social_login`, naming which branch ran. -/
inductive LinkResult
  | alreadyLinked
  | abortedNoEmail
  | linked (username : String)
  | deferToCreation
  | linkedAnomaly (username : String)
  | anomalyNoUser
deriving DecidableEq, Repr

/-- `order_by('date_joined').first()`: the earliest-joined user, first row
winning ties (stable minimum). -/
def earliestJoined : List UserRec → Option UserRec
  | [] => none
  | u :: us =>
    match earliestJoined us with
    | none => some u
    | some v => some (if v.dateJoined < u.dateJoined then v else u)

/-- `CustomSocialAccountAdapter.pre_social_login`: skip if already linked;
read the email from the assertion (google only); the Python falsy guard
`if not email` aborts on a missing **or empty** email;
`User.objects.get(email=email)` then branches on 0 / 1 / many matches. -/
def pre_social_login (userTable : List UserRec) (sl : SocialLogin) : LinkResult :=
  if sl.isExisting then LinkResult.alreadyLinked
  else
    let email := if sl.provider = "google" then sl.email else none
    match email with
    | none => LinkResult.abortedNoEmail
    | some e =>
      if e = "" then LinkResult.abortedNoEmail
      else
        match userTable.filter (fun u => u.email == e) with
        | [] => LinkResult.deferToCreation
        | [u] => LinkResult.linked u.username
        | u :: v :: rest =>
          match earliestJoined (u :: v :: rest) with
          | some w => LinkResult.linkedAnomaly w.username
          | none => LinkResult.anomalyNoUser

/-! ### Concrete sample data used by the witness theorems -/

/-- A sample team. -/
def sampleTeam : Team :=
  { id := 7, name := "T", createdBy := "ann" }

/-- A sample database: three users, two of them members of the team. -/
def sampleDB : DB :=
  { users := ["ann", "bob", "eve"],
    memberships :=
      [ { team := 7, user := "ann", role := Role.owner },
        { team := 7, user := "bob", role := Role.member } ] }

/-- A sample task in the team. -/
def sampleTask : Task :=
  { id := 5, title := "t", team := sampleTeam, createdBy := "ann",
    assignedTo := none }

/-- A sample comment by `"ann"` mentioning `"bob"` twice, herself, the
existing non-member `"eve"` and the nonexistent `"zed"`. -/
def sampleComment : Comment :=
  { id := 3, task := sampleTask, author := "ann",
    content := "hi @bob and @bob, not me @ann, nor @eve or @zed" }

/-- The sample task with an assignee distinct from its creator. -/
def sampleAssignedTask : Task :=
  { id := 5, title := "t", team := sampleTeam, createdBy := "ann",
    assignedTo := some "bob" }

/-- The sample task variant whose creator `"ann"` is also its assignee. -/
def sampleSelfAssignedTask : Task :=
  { id := 6, title := "s", team := sampleTeam, createdBy := "ann",
    assignedTo := some "ann" }

/-- A file attached to the sample comment. -/
def sampleCommentFile : FileUpload :=
  { id := 11, uploadedBy := "ann", filename := "a.txt",
    attachedTo := AttachTarget.toComment sampleComment }

/-- A file uploaded by `"eve"` to a task created by and assigned to
`"ann"`. -/
def sampleTaskFile : FileUpload :=
  { id := 12, uploadedBy := "eve", filename := "b.txt",
    attachedTo := AttachTarget.toTask sampleSelfAssignedTask }

/-- A sample stored notification for `"bob"`. -/
def sampleNotification1 : StoredNotification :=
  { nid := 1, recipient := "bob", sender := "ann",
    notification_type := NotifType.mention, message := "m1",
    target := Target.comment 3, isRead := false, createdAt := 100 }

/-- A sample stored notification for `"eve"`. -/
def sampleNotification2 : StoredNotification :=
  { nid := 2, recipient := "eve", sender := "ann",
    notification_type := NotifType.assignment, message := "m2",
    target := Target.task 5, isRead := false, createdAt := 200 }

/-- Two sample stored notifications (distinct ids and recipients). -/
def sampleNotifications : List StoredNotification :=
  [sampleNotification1, sampleNotification2]

/-- A sample user table with a unique email and a duplicated email whose
earliest-joined owner is `"u2"`. -/
def sampleUsers : List UserRec :=
  [ { username := "u1", email := "a@x.com", dateJoined := 5 },
    { username := "u2", email := "b@x.com", dateJoined := 3 },
    { username := "u3", email := "b@x.com", dateJoined := 9 } ]

/-! ## Helper lemmas -/

/-- Membership in the deduplication loop: kept iff present and not seen. -/
theorem mem_uniquePreserveOrder {x : String} :
    ∀ (l seen : List String),
      x ∈ uniquePreserveOrder seen l ↔ x ∈ l ∧ x ∉ seen := by
  intro l
  induction l with
  | nil => intro seen; simp [uniquePreserveOrder]
  | cons m ms ih =>
    intro seen
    by_cases hm : m ∈ seen
    · simp only [uniquePreserveOrder, if_pos hm, ih, List.mem_cons]
      constructor
      · rintro ⟨hx, hs⟩; exact ⟨Or.inr hx, hs⟩
      · rintro ⟨hx | hx, hs⟩
        · exact absurd (hx ▸ hm) hs
        · exact ⟨hx, hs⟩
    · simp only [uniquePreserveOrder, if_neg hm, List.mem_cons, ih]
      by_cases hxm : x = m
      · subst hxm; simp [hm]
      · simp [hxm]

/-- The deduplication loop produces a duplicate-free list. -/
theorem nodup_uniquePreserveOrder :
    ∀ (l seen : List String), (uniquePreserveOrder seen l).Nodup := by
  intro l
  induction l with
  | nil => intro seen; simp [uniquePreserveOrder]
  | cons m ms ih =>
    intro seen
    by_cases hm : m ∈ seen
    · simpa [uniquePreserveOrder, if_pos hm] using ih seen
    · simp only [uniquePreserveOrder, if_neg hm, List.nodup_cons]
      refine ⟨fun hmem => ?_, ih (m :: seen)⟩
      exact ((mem_uniquePreserveOrder ms (m :: seen)).mp hmem).2 (List.mem_cons_self m seen)

/-- The deduplication loop keeps elements in their original order. -/
theorem sublist_uniquePreserveOrder :
    ∀ (l seen : List String), List.Sublist (uniquePreserveOrder seen l) l := by
  intro l
  induction l with
  | nil => intro seen; simp [uniquePreserveOrder]
  | cons m ms ih =>
    intro seen
    by_cases hm : m ∈ seen
    · simpa [uniquePreserveOrder, if_pos hm] using (ih seen).trans (List.sublist_cons_self m ms)
    · simpa [uniquePreserveOrder, if_neg hm] using List.Sublist.cons₂ m (ih (m :: seen))

/-- The spec's fold formulation agrees with the source's seen-set loop. -/
theorem foldl_eq_uniquePreserveOrder :
    ∀ (l acc seen : List String), (∀ x, x ∈ seen ↔ x ∈ acc) →
      l.foldl (fun acc m => if m ∈ acc then acc else acc ++ [m]) acc =
        acc ++ uniquePreserveOrder seen l := by
  intro l
  induction l with
  | nil => intro acc seen _; simp [uniquePreserveOrder]
  | cons m ms ih =>
    intro acc seen h
    by_cases hm : m ∈ seen
    · have hacc : m ∈ acc := (h m).mp hm
      simp only [List.foldl_cons, if_pos hacc, uniquePreserveOrder, if_pos hm]
      exact ih acc seen h
    · have hacc : m ∉ acc := fun hx => hm ((h m).mpr hx)
      simp only [List.foldl_cons, if_neg hacc, uniquePreserveOrder, if_neg hm]
      rw [ih (acc ++ [m]) (m :: seen) ?_, List.append_assoc]
      · simp
      · intro x
        simp only [List.mem_cons, List.mem_append, List.mem_singleton, h x]
        tauto

/-- Every token produced by the scan is a nonempty word-character run that
occurs immediately after an `@` in the scanned text. -/
theorem mentionScan_sound :
    ∀ (fuel : Nat) (l : List Char), l.length ≤ fuel →
      ∀ tok ∈ mentionScan fuel l,
        tok ≠ "" ∧ tok.data.all isWordChar ∧ ('@' :: tok.data) <:+: l := by
  intro fuel
  induction fuel with
  | zero => intro l _ tok htok; simp [mentionScan] at htok
  | succ fuel ih =>
    intro l hlen tok htok
    match l with
    | [] => simp [mentionScan] at htok
    | c :: rest =>
      simp only [List.length_cons, Nat.succ_le_succ_iff] at hlen
      by_cases hcond : (c == '@' && !(rest.takeWhile isWordChar).isEmpty) = true
      · rw [mentionScan, if_pos hcond] at htok
        have hc : c = '@' := by
          have := (Bool.and_eq_true _ _).mp hcond |>.1
          exact eq_of_beq this
        have hne : rest.takeWhile isWordChar ≠ [] := by
          have := (Bool.and_eq_true _ _).mp hcond |>.2
          simpa using this
        rcases List.mem_cons.mp htok with heq | htl
        · subst heq
          refine ⟨?_, ?_, ?_⟩
          · intro habs
            apply hne
            have : ((rest.takeWhile isWordChar).asString).data = rest.takeWhile isWordChar := rfl
            rw [habs] at this
            exact this.symm
          · have hdata : ((rest.takeWhile isWordChar).asString).data = rest.takeWhile isWordChar := rfl
            rw [hdata, List.all_eq_true]
            intro x hx
            exact List.mem_takeWhile_imp hx
          · refine ⟨[], rest.dropWhile isWordChar, ?_⟩
            have hdata : ((rest.takeWhile isWordChar).asString).data = rest.takeWhile isWordChar := rfl
            rw [hdata, hc]
            simp [List.takeWhile_append_dropWhile]
        · have hdrop : (rest.dropWhile isWordChar).length ≤ fuel :=
            le_trans (List.Sublist.length_le (List.dropWhile_sublist isWordChar)) hlen
          obtain ⟨h1, h2, s, t, hst⟩ := ih (rest.dropWhile isWordChar) hdrop tok htl
          refine ⟨h1, h2, c :: (rest.takeWhile isWordChar ++ s), t, ?_⟩
          simp only [List.cons_append, List.append_assoc, hst,
            List.takeWhile_append_dropWhile]
      · rw [mentionScan, if_neg hcond] at htok
        obtain ⟨h1, h2, s, t, hst⟩ := ih rest hlen tok htok
        exact ⟨h1, h2, c :: s, t, by simp [hst]⟩

/-! ## Claim theorems -/

/-- **C2.** `extract_mentions` returns, for any text, the `@(\w+)` match list
with duplicates removed preserving first-occurrence order (stated by equality
with the spec-side fold `specDedupFirstOccurrence`); the result is
duplicate-free, a sublist of the match list, each returned token is a
nonempty word-character run occurring right after an `@` in the text, and
empty or absent text yields `[]`. -/
theorem claim_C2 :
    extract_mentions none = [] ∧
    extract_mentions (some "") = [] ∧
    (∀ t : String,
      extract_mentions (some t) = specDedupFirstOccurrence (mentionTokens t.data)) ∧
    (∀ t : String, (extract_mentions (some t)).Nodup) ∧
    (∀ t : String, List.Sublist (extract_mentions (some t)) (mentionTokens t.data)) ∧
    (∀ t : String, ∀ tok ∈ extract_mentions (some t),
      tok ≠ "" ∧ tok.data.all isWordChar ∧ ('@' :: tok.data) <:+: t.data) := by
  have hmain : ∀ t : String,
      extract_mentions (some t) = uniquePreserveOrder [] (mentionTokens t.data) := by
    intro t
    by_cases ht : t = ""
    · subst ht; rfl
    · simp [extract_mentions, ht]
  refine ⟨rfl, rfl, ?_, ?_, ?_, ?_⟩
  · intro t
    rw [hmain t, specDedupFirstOccurrence,
      foldl_eq_uniquePreserveOrder (mentionTokens t.data) [] [] (by simp)]
    simp
  · intro t
    rw [hmain t]
    exact nodup_uniquePreserveOrder _ _
  · intro t
    rw [hmain t]
    exact sublist_uniquePreserveOrder _ _
  · intro t tok htok
    rw [hmain t] at htok
    have hmem : tok ∈ mentionTokens t.data :=
      ((mem_uniquePreserveOrder _ _).mp htok).1
    exact mentionScan_sound t.data.length t.data (le_refl _) tok hmem

/-- Witness for C2 at the concrete text `"hi @bob, see @bob"`: the token
`"bob"` is extracted once, nonempty, all word characters, after an `@`. -/
theorem claim_C2_witness :
    "bob" ≠ "" ∧ ("bob".data.all isWordChar) = true ∧
      ('@' :: "bob".data) <:+: "hi @bob, see @bob".data :=
  claim_C2.2.2.2.2.2 "hi @bob, see @bob" "bob" (by decide)

/-- Usernames of the members of a team, in membership-table order. -/
def memberUsers (db : DB) (t : Team) : List String :=
  (db.memberships.filter (fun m => m.team = t.id)).map TeamMembership.user

/-- `get_mentioned_users` with a team filters the user table by
"mentioned and member". -/
theorem get_mentioned_users_eq (db : DB) (text : Option String) (t : Team) :
    get_mentioned_users db text (some t) =
      db.users.filter
        (fun u => decide (u ∈ extract_mentions text) &&
          decide (u ∈ memberUsers db t)) := by
  unfold get_mentioned_users
  by_cases h : (extract_mentions text).isEmpty
  · rw [if_pos h]
    have hnil : extract_mentions text = [] := by simpa using h
    symm
    rw [List.filter_eq_nil_iff]
    intro u _
    simp [hnil]
  · rw [if_neg h]
    simp only [memberUsers, List.filter_filter]
    congr 1
    funext u
    rw [Bool.and_comm]

/-- The loop of `create_mention_notifications` is a filter-then-map. -/
theorem mentionLoop_eq (c : Comment) :
    ∀ L : List String,
      mentionLoop c L =
        (L.filter (fun u => u ≠ c.author)).map
          (fun u => create_notification u c.author NotifType.mention
            (mentionMessage c) (Target.comment c.id)) := by
  intro L
  induction L with
  | nil => rfl
  | cons u us ih =>
    by_cases hu : u ≠ c.author
    · simp only [mentionLoop, if_pos hu, List.filter_cons]
      rw [if_pos (by simpa using hu)]
      simp [ih]
    · simp only [mentionLoop, if_neg hu, List.filter_cons]
      rw [if_neg (by simpa using hu)]
      exact ih

/-- In a duplicate-free list, a filter whose predicate forces equality with
`u` keeps exactly one element when `u` is present and satisfies it. -/
theorem length_filter_singleton {l : List String} (hnd : l.Nodup) (u : String)
    (p : String → Bool) (hp : ∀ v, p v = true → v = u) :
    (l.filter p).length = if p u = true ∧ u ∈ l then 1 else 0 := by
  induction l with
  | nil => simp
  | cons a l ih =>
    rw [List.nodup_cons] at hnd
    by_cases pa : p a = true
    · have hau : a = u := hp a pa
      subst hau
      rw [List.filter_cons, if_pos pa]
      have h0 : (l.filter p).length = 0 := by
        rw [ih hnd.2]
        simp [hnd.1]
      simp [h0, pa]
    · rw [List.filter_cons, if_neg pa, ih hnd.2]
      by_cases hu : u ∈ l
      · by_cases pu : p u = true
        · simp [pu, hu, List.mem_cons]
        · simp [pu]
      · by_cases hua : u = a
        · subst hua
          simp [pa, hu]
        · simp [hu, hua, pa]

/-- **C1.** `create_mention_notifications` creates exactly one mention
notification for every mentioned team member other than the comment's author
(with sender the author, type mention, target the comment), none for the
author, and none for anyone who is not a mentioned member of the task's
team. -/
theorem claim_C1 (db : DB) (c : Comment) (hnd : db.users.Nodup) :
    (∀ u, u ∈ db.users → u ∈ extract_mentions (some c.content) →
      u ∈ memberUsers db c.task.team → u ≠ c.author →
      ((create_mention_notifications db c).filter
        (fun n => n.recipient = u)).length = 1) ∧
    ((create_mention_notifications db c).filter
      (fun n => n.recipient = c.author)).length = 0 ∧
    (∀ n ∈ create_mention_notifications db c,
      n.sender = c.author ∧ n.notification_type = NotifType.mention ∧
      n.target = Target.comment c.id ∧ n.message = mentionMessage c ∧
      n.recipient ≠ c.author ∧ n.recipient ∈ db.users ∧
      n.recipient ∈ extract_mentions (some c.content) ∧
      n.recipient ∈ memberUsers db c.task.team) := by
  have hN : create_mention_notifications db c =
      (db.users.filter
        (fun u => decide (u ≠ c.author) &&
          (decide (u ∈ extract_mentions (some c.content)) &&
            decide (u ∈ memberUsers db c.task.team)))).map
        (fun u => create_notification u c.author NotifType.mention
          (mentionMessage c) (Target.comment c.id)) := by
    rw [create_mention_notifications, mentionLoop_eq, get_mentioned_users_eq,
      List.filter_filter]
  refine ⟨?_, ?_, ?_⟩
  · intro u hu hm hmem hne
    rw [hN, List.filter_map]
    have hcomp : ((fun n : Notification => decide (n.recipient = u)) ∘
        (fun u => create_notification u c.author NotifType.mention
          (mentionMessage c) (Target.comment c.id))) =
        fun v => decide (v = u) := by
      funext v
      rfl
    rw [hcomp, List.length_map, List.filter_filter]
    rw [length_filter_singleton hnd u _ (fun v hv => by
      simp only [Bool.and_eq_true, decide_eq_true_eq] at hv
      exact hv.1)]
    rw [if_pos ⟨by simp [hne, hm, hmem], hu⟩]
  · rw [hN, List.filter_map]
    have hcomp : ((fun n : Notification => decide (n.recipient = c.author)) ∘
        (fun u => create_notification u c.author NotifType.mention
          (mentionMessage c) (Target.comment c.id))) =
        fun v => decide (v = c.author) := by
      funext v
      rfl
    rw [hcomp, List.length_map, List.filter_filter]
    have hnil : db.users.filter
        (fun v => decide (v = c.author) &&
          (decide (v ≠ c.author) &&
            (decide (v ∈ extract_mentions (some c.content)) &&
              decide (v ∈ memberUsers db c.task.team)))) = [] := by
      rw [List.filter_eq_nil_iff]
      intro v _ hv
      simp only [Bool.and_eq_true, decide_eq_true_eq] at hv
      exact hv.2.1 hv.1
    rw [hnil]
    rfl
  · intro n hn
    rw [hN] at hn
    obtain ⟨u, hu, rfl⟩ := List.mem_map.mp hn
    have hu' := List.mem_filter.mp hu
    have hcond := hu'.2
    simp only [Bool.and_eq_true, decide_eq_true_eq] at hcond
    exact ⟨rfl, rfl, rfl, rfl, hcond.1, hu'.1, hcond.2.1, hcond.2.2⟩

/-- Witness for C1: a comment by `"ann"` mentioning members `"bob"` (once,
despite a double mention) and `"ann"` herself (no self-notification). -/
theorem claim_C1_witness :
    ((create_mention_notifications sampleDB sampleComment).filter
      (fun n => n.recipient = "bob")).length = 1 ∧
    ((create_mention_notifications sampleDB sampleComment).filter
      (fun n => n.recipient = "ann")).length = 0 :=
  ⟨(claim_C1 sampleDB sampleComment (by decide)).1 "bob" (by decide)
      (by decide) (by decide) (by decide),
    (claim_C1 sampleDB sampleComment (by decide)).2.1⟩

/-- **C3.** `create_assignment_notification` returns `None` for an unassigned
task and for a task whose assignee is its creator (the assigner in this
service), and otherwise creates exactly one assignment notification to the
assignee with the creator as sender; the update signal computes an
assignment notification exactly when an assignee is set, the assignee
changed, and the assignee is not the updating user. -/
theorem claim_C3 (task : Task) (oldAssigned : Option String)
    (updatingUser : String) :
    (task.assignedTo = none → create_assignment_notification task = none) ∧
    (task.assignedTo = some task.createdBy →
      create_assignment_notification task = none) ∧
    (∀ a, task.assignedTo = some a → a ≠ task.createdBy →
      create_assignment_notification task =
        some (create_notification a task.createdBy NotifType.assignment
          (assignmentMessage task.createdBy task) (Target.task task.id))) ∧
    ((assignmentNotificationOnUpdate task oldAssigned updatingUser).isSome ↔
      ∃ a, task.assignedTo = some a ∧ oldAssigned ≠ some a ∧
        a ≠ updatingUser) := by
  refine ⟨?_, ?_, ?_, ?_⟩
  · intro h
    simp [create_assignment_notification, h]
  · intro h
    simp [create_assignment_notification, h]
  · intro a ha hne
    simp [create_assignment_notification, ha, hne]
  · cases hA : task.assignedTo with
    | none => simp [assignmentNotificationOnUpdate, hA]
    | some a =>
      by_cases hold : oldAssigned ≠ some a
      · by_cases hu : a ≠ updatingUser
        · simp [assignmentNotificationOnUpdate, hA, hold, hu]
        · simp [assignmentNotificationOnUpdate, hA, hold, hu]
      · simp [assignmentNotificationOnUpdate, hA, hold]

/-- Witness for C3: the unassigned sample task yields no notification; the
assigned sample task yields the assignment notification to `"bob"`. -/
theorem claim_C3_witness :
    create_assignment_notification sampleTask = none ∧
    create_assignment_notification sampleAssignedTask =
      some (create_notification "bob" "ann" NotifType.assignment
        (assignmentMessage "ann" sampleAssignedTask) (Target.task 5)) :=
  ⟨(claim_C3 sampleTask none "ann").1 (by decide),
    (claim_C3 sampleAssignedTask none "ann").2.2.1 "bob" (by decide) (by decide)⟩

/-- **C6.** Creating a team creates exactly one membership, with role owner,
for the creator, and grants the creator all four object permissions on the
team; every grant made by the handler is to the creator on that team. -/
theorem claim_C6 (t : Team) :
    (create_team_owner_membership t true).1 =
      [{ team := t.id, user := t.createdBy, role := Role.owner }] ∧
    (∀ p : TeamPerm,
      ({ perm := p, user := t.createdBy, team := t.id } : TeamPermGrant) ∈
        (create_team_owner_membership t true).2) ∧
    (∀ g ∈ (create_team_owner_membership t true).2,
      g.user = t.createdBy ∧ g.team = t.id) := by
  refine ⟨rfl, ?_, ?_⟩
  · intro p
    cases p <;>
      simp [create_team_owner_membership, assign_membership_permissions]
  · simp [create_team_owner_membership, assign_membership_permissions]

/-- Witness for C6 on the sample team: the owner membership row, the
manage-members grant, and the shape of an arbitrary grant. -/
theorem claim_C6_witness :
    (create_team_owner_membership sampleTeam true).1 =
      [{ team := 7, user := "ann", role := Role.owner }] ∧
    ({ perm := TeamPerm.manage_members, user := "ann", team := 7 } :
        TeamPermGrant) ∈ (create_team_owner_membership sampleTeam true).2 ∧
    (({ perm := TeamPerm.view, user := "ann", team := 7 } :
        TeamPermGrant).user = "ann" ∧
      ({ perm := TeamPerm.view, user := "ann", team := 7 } :
        TeamPermGrant).team = 7) :=
  ⟨(claim_C6 sampleTeam).1, (claim_C6 sampleTeam).2.1 TeamPerm.manage_members,
    (claim_C6 sampleTeam).2.2 _ (by decide)⟩

/-- Membership in the task-creation permission loop, characterised. -/
theorem mem_taskCreationPermLoop (task : Task) (g : TaskPermGrant) :
    ∀ ms : List TeamMembership,
      g ∈ taskCreationPermLoop task ms ↔
        ∃ m ∈ ms,
          g = taskViewGrant task m.user ∨
            ((m.role = Role.owner ∨ m.user = task.createdBy) ∧
              (g = taskChangeGrant task m.user ∨
                g = taskDeleteGrant task m.user)) := by
  intro ms
  induction ms with
  | nil => simp [taskCreationPermLoop]
  | cons m ms ih =>
    by_cases hm : m.role = Role.owner ∨ m.user = task.createdBy
    · simp only [taskCreationPermLoop, if_pos hm, List.mem_cons,
        List.mem_append, List.mem_singleton, ih, List.not_mem_nil, or_false]
      constructor
      · rintro (rfl | (rfl | rfl) | ⟨m', hm', hg⟩)
        · exact ⟨m, Or.inl rfl, Or.inl rfl⟩
        · exact ⟨m, Or.inl rfl, Or.inr ⟨hm, Or.inl rfl⟩⟩
        · exact ⟨m, Or.inl rfl, Or.inr ⟨hm, Or.inr rfl⟩⟩
        · exact ⟨m', Or.inr hm', hg⟩
      · rintro ⟨m', hm' | hm', hg⟩
        · subst hm'
          rcases hg with rfl | ⟨_, rfl | rfl⟩
          · exact Or.inl rfl
          · exact Or.inr (Or.inl (Or.inl rfl))
          · exact Or.inr (Or.inl (Or.inr rfl))
        · exact Or.inr (Or.inr ⟨m', hm', hg⟩)
    · simp only [taskCreationPermLoop, if_neg hm, List.mem_cons,
        List.nil_append, ih]
      constructor
      · rintro (rfl | ⟨m', hm', hg⟩)
        · exact ⟨m, Or.inl rfl, Or.inl rfl⟩
        · exact ⟨m', Or.inr hm', hg⟩
      · rintro ⟨m', hm' | hm', hg⟩
        · subst hm'
          rcases hg with rfl | ⟨hrole, _⟩
          · exact Or.inl rfl
          · exact absurd hrole hm
        · exact Or.inr ⟨m', hm', hg⟩

/-- **C7.** On task creation every member of the task's team is granted view
on the task, the change and delete permissions go exactly to the members who
are owners or the task's creator, and every grant is to a member of the
team, on that task. -/
theorem claim_C7 (db : DB) (task : Task) :
    (∀ m ∈ db.memberships, m.team = task.team.id →
      taskViewGrant task m.user ∈ log_task_created_perms db task) ∧
    (∀ u, taskChangeGrant task u ∈ log_task_created_perms db task ↔
      ∃ m ∈ db.memberships, m.team = task.team.id ∧ m.user = u ∧
        (m.role = Role.owner ∨ m.user = task.createdBy)) ∧
    (∀ u, taskDeleteGrant task u ∈ log_task_created_perms db task ↔
      ∃ m ∈ db.memberships, m.team = task.team.id ∧ m.user = u ∧
        (m.role = Role.owner ∨ m.user = task.createdBy)) ∧
    (∀ g ∈ log_task_created_perms db task,
      g.task = task.id ∧
        ∃ m ∈ db.memberships, m.team = task.team.id ∧ m.user = g.user) := by
  have hmem : ∀ m : TeamMembership,
      m ∈ db.memberships.filter (fun m => m.team == task.team.id) ↔
        m ∈ db.memberships ∧ m.team = task.team.id := by
    intro m
    simp [List.mem_filter]
  refine ⟨?_, ?_, ?_, ?_⟩
  · intro m hm hteam
    rw [log_task_created_perms, mem_taskCreationPermLoop]
    exact ⟨m, (hmem m).mpr ⟨hm, hteam⟩, Or.inl rfl⟩
  · intro u
    rw [log_task_created_perms, mem_taskCreationPermLoop]
    constructor
    · rintro ⟨m, hm, hg | ⟨hrole, hg | hg⟩⟩
      · exact absurd (congrArg TaskPermGrant.perm hg)
          (by simp [taskChangeGrant, taskViewGrant])
      · have hu : m.user = u := (congrArg TaskPermGrant.user hg).symm
        exact ⟨m, ((hmem m).mp hm).1, ((hmem m).mp hm).2, hu, hrole⟩
      · exact absurd (congrArg TaskPermGrant.perm hg)
          (by simp [taskChangeGrant, taskDeleteGrant])
    · rintro ⟨m, hm, hteam, hu, hrole⟩
      subst hu
      exact ⟨m, (hmem m).mpr ⟨hm, hteam⟩, Or.inr ⟨hrole, Or.inl rfl⟩⟩
  · intro u
    rw [log_task_created_perms, mem_taskCreationPermLoop]
    constructor
    · rintro ⟨m, hm, hg | ⟨hrole, hg | hg⟩⟩
      · exact absurd (congrArg TaskPermGrant.perm hg)
          (by simp [taskDeleteGrant, taskViewGrant])
      · exact absurd (congrArg TaskPermGrant.perm hg)
          (by simp [taskDeleteGrant, taskChangeGrant])
      · have hu : m.user = u := (congrArg TaskPermGrant.user hg).symm
        exact ⟨m, ((hmem m).mp hm).1, ((hmem m).mp hm).2, hu, hrole⟩
    · rintro ⟨m, hm, hteam, hu, hrole⟩
      subst hu
      exact ⟨m, (hmem m).mpr ⟨hm, hteam⟩, Or.inr ⟨hrole, Or.inr rfl⟩⟩
  · intro g hg
    rw [log_task_created_perms, mem_taskCreationPermLoop] at hg
    obtain ⟨m, hm, hcase⟩ := hg
    have hmm := (hmem m).mp hm
    rcases hcase with rfl | ⟨_, rfl | rfl⟩
    all_goals exact ⟨rfl, m, hmm.1, hmm.2, rfl⟩

/-- Witness for C7 on the sample data: the member `"bob"` gets view on the
task, and change is granted to exactly the owner-or-creator members. -/
theorem claim_C7_witness :
    taskViewGrant sampleTask "bob" ∈ log_task_created_perms sampleDB sampleTask ∧
    (taskChangeGrant sampleTask "ann" ∈ log_task_created_perms sampleDB sampleTask ↔
      ∃ m ∈ sampleDB.memberships, m.team = sampleTask.team.id ∧
        m.user = "ann" ∧ (m.role = Role.owner ∨ m.user = sampleTask.createdBy)) :=
  ⟨(claim_C7 sampleDB sampleTask).1
      { team := 7, user := "bob", role := Role.member } (by decide) (by decide),
    (claim_C7 sampleDB sampleTask).2.1 "ann"⟩

/-- With unique primary keys, the lookup of `mark_as_read` finds exactly the
row with the requested id and recipient. -/
theorem find?_notification_unique (nid : Nat) (user : String) :
    ∀ l : List StoredNotification,
      (l.map StoredNotification.nid).Nodup →
      ∀ n ∈ l, n.nid = nid → n.recipient = user →
        l.find? (fun m => m.nid == nid && m.recipient == user) = some n := by
  intro l
  induction l with
  | nil => intro _ n hn; exact absurd hn (List.not_mem_nil n)
  | cons a l ih =>
    intro hnd n hn hid huser
    rw [List.map_cons, List.nodup_cons] at hnd
    rcases List.mem_cons.mp hn with rfl | hn'
    · rw [List.find?_cons_of_pos]
      simp [hid, huser]
    · have haid : a.nid ≠ nid := by
        intro h
        exact hnd.1 (h ▸ hid ▸ List.mem_map_of_mem StoredNotification.nid hn')
      rw [List.find?_cons_of_neg]
      · exact ih hnd.2 n hn' hid huser
      · simp [haid]

/-- **C8.** `mark_as_read` updates the read flag only of the notification
with the given id when its recipient is the given user, returning it; when
no notification matches both the id and the recipient it returns `None` and
leaves the table unchanged; rows with a different id are never touched. -/
theorem claim_C8 (db : List StoredNotification) (nid : Nat) (user : String) :
    ((∀ n ∈ db, ¬(n.nid = nid ∧ n.recipient = user)) →
      mark_as_read db nid user = (none, db)) ∧
    ((db.map StoredNotification.nid).Nodup →
      ∀ n ∈ db, n.nid = nid → n.recipient = user →
        mark_as_read db nid user =
          (some { n with isRead := true },
            db.map (fun m =>
              if m.nid == nid then { n with isRead := true } else m))) ∧
    (∀ m ∈ (mark_as_read db nid user).2, m.nid ≠ nid → m ∈ db) := by
  refine ⟨?_, ?_, ?_⟩
  · intro h
    have hf : db.find? (fun m => m.nid == nid && m.recipient == user) = none := by
      rw [List.find?_eq_none]
      intro n hn
      simp only [Bool.and_eq_true, beq_iff_eq]
      intro hc
      exact h n hn hc
    rw [mark_as_read, hf]
  · intro hnd n hn hid huser
    subst hid
    rw [mark_as_read, find?_notification_unique n.nid user db hnd n hn rfl huser]
  · intro m hm hne
    rcases hf : db.find? (fun m => m.nid == nid && m.recipient == user) with
      _ | n
    · rw [mark_as_read, hf] at hm
      exact hm
    · have hp := List.find?_some hf
      simp only [Bool.and_eq_true, beq_iff_eq] at hp
      rw [mark_as_read, hf] at hm
      simp only at hm
      obtain ⟨x, hx, hxm⟩ := List.mem_map.mp hm
      by_cases hxid : x.nid = n.nid
      · rw [if_pos (by simpa using hxid)] at hxm
        subst hxm
        exact absurd hp.1 hne
      · rw [if_neg (by simpa using hxid)] at hxm
        exact hxm ▸ hx

/-- Witness for C8: marking notification 2 as `"bob"` (wrong recipient)
changes nothing; marking notification 1 as `"bob"` flips exactly its flag. -/
theorem claim_C8_witness :
    mark_as_read sampleNotifications 2 "bob" = (none, sampleNotifications) ∧
    mark_as_read sampleNotifications 1 "bob" =
      (some { sampleNotification1 with isRead := true },
        sampleNotifications.map (fun m =>
          if m.nid == 1 then { sampleNotification1 with isRead := true }
          else m)) :=
  ⟨(claim_C8 sampleNotifications 2 "bob").1 (by decide),
    (claim_C8 sampleNotifications 1 "bob").2.1 (by decide) sampleNotification1
      (by decide) (by decide) (by decide)⟩

/-- Membership in the file-upload recipient set. -/
theorem mem_fileUploadRecipients (task : Task) (u : String) :
    u ∈ fileUploadRecipients task ↔
      (u = task.createdBy ∨ task.assignedTo = some u) := by
  rcases hA : task.assignedTo with _ | a
  · simp [fileUploadRecipients, hA]
  · by_cases ha : a = task.createdBy
    · subst ha
      simp only [fileUploadRecipients, hA, eq_self_iff_true, if_true,
        List.mem_singleton, Option.some_inj]
      constructor
      · exact fun h => Or.inl h
      · rintro (h | h)
        · exact h
        · exact h.symm
    · simp only [fileUploadRecipients, hA, if_neg ha, List.mem_cons,
        List.mem_singleton, List.not_mem_nil, or_false, Option.some_inj]
      constructor
      · rintro (h | h)
        · exact Or.inl h
        · exact Or.inr h.symm
      · rintro (h | h)
        · exact Or.inl h
        · exact Or.inr h.symm

/-- The file-upload recipient set is duplicate-free. -/
theorem nodup_fileUploadRecipients (task : Task) :
    (fileUploadRecipients task).Nodup := by
  rcases hA : task.assignedTo with _ | a
  · simp [fileUploadRecipients, hA]
  · by_cases ha : a = task.createdBy
    · simp [fileUploadRecipients, hA, ha]
    · simp [fileUploadRecipients, hA, if_neg ha, Ne.symm ha]

/-- **C10.** A file upload attached to a comment produces no activity-log
entry and no notification; one attached to a task logs one entry and
notifies exactly the users in `{task creator, assignee}` minus the uploader,
each exactly once (so a creator who is also the assignee gets a single
notification, and an uploader who is both triggers none). -/
theorem claim_C10 (f : FileUpload) :
    (∀ c : Comment, f.attachedTo = AttachTarget.toComment c →
      log_file_upload f = (none, [])) ∧
    (∀ task : Task, f.attachedTo = AttachTarget.toTask task →
      (log_file_upload f).1 = some (fileUploadLog f task) ∧
      (∀ u : String,
        (((log_file_upload f).2).filter (fun n => n.recipient = u)).length =
          if (u = task.createdBy ∨ task.assignedTo = some u) ∧
              u ≠ f.uploadedBy then 1 else 0) ∧
      (∀ n ∈ (log_file_upload f).2,
        n.sender = f.uploadedBy ∧
          n.notification_type = NotifType.file_uploaded ∧
          n.target = Target.file f.id)) := by
  constructor
  · intro c hc
    simp only [log_file_upload, hc]
  · intro task htask
    have hun : log_file_upload f =
        (some (fileUploadLog f task),
          ((fileUploadRecipients task).filter
            (fun u => u ≠ f.uploadedBy)).map
            (create_file_upload_notification f task)) := by
      simp only [log_file_upload, htask]
    refine ⟨by rw [hun], ?_, ?_⟩
    · intro u
      rw [hun]
      simp only [List.filter_map]
      have hcomp : ((fun n : Notification => decide (n.recipient = u)) ∘
          create_file_upload_notification f task) =
          fun v => decide (v = u) := by
        funext v
        rfl
      rw [hcomp, List.length_map, List.filter_filter]
      rw [length_filter_singleton (nodup_fileUploadRecipients task) u _
        (fun v hv => by
          simp only [Bool.and_eq_true, decide_eq_true_eq] at hv
          exact hv.1)]
      refine if_congr ?_ rfl rfl
      rw [mem_fileUploadRecipients]
      constructor
      · rintro ⟨hb, hmem⟩
        simp only [Bool.and_eq_true, decide_eq_true_eq] at hb
        exact ⟨hmem, hb.2⟩
      · rintro ⟨hmem, hup⟩
        exact ⟨by simp [hup], hmem⟩
    · intro n hn
      rw [hun] at hn
      simp only at hn
      obtain ⟨v, _, rfl⟩ := List.mem_map.mp hn
      exact ⟨rfl, rfl, rfl⟩

/-- Witness for C10: the comment-attached file produces nothing; the
task-attached file on a creator-assigned-to-self task notifies `"ann"`
exactly once and the uploader `"eve"` not at all. -/
theorem claim_C10_witness :
    log_file_upload sampleCommentFile = (none, []) ∧
    (((log_file_upload sampleTaskFile).2).filter
      (fun n => n.recipient = "ann")).length = 1 ∧
    (((log_file_upload sampleTaskFile).2).filter
      (fun n => n.recipient = "eve")).length = 0 := by
  have hat : sampleTaskFile.attachedTo =
      AttachTarget.toTask sampleSelfAssignedTask := by decide
  refine ⟨(claim_C10 sampleCommentFile).1 sampleComment (by decide), ?_, ?_⟩
  · have h := ((claim_C10 sampleTaskFile).2 sampleSelfAssignedTask hat).2.1 "ann"
    rw [h]
    decide
  · have h := ((claim_C10 sampleTaskFile).2 sampleSelfAssignedTask hat).2.1 "eve"
    rw [h]
    decide

/-- **C9.** `get_pending_notifications` returns exactly the unread
notifications of the given recipient created within the window before `now`
(inclusive cutoff), in ascending creation-time order; an absent window falls
back to the `NOTIFICATION_BATCH_WINDOW` setting and then to 300 seconds. -/
theorem claim_C9 (db : List StoredNotification) (user : String)
    (w : Int) (settingW : Option Int) (now : Int) :
    (∀ n, n ∈ get_pending_notifications db user (some w) settingW now ↔
      (n ∈ db ∧ n.recipient = user ∧ n.isRead = false ∧
        now - w ≤ n.createdAt)) ∧
    List.Sorted notifLE (get_pending_notifications db user (some w) settingW now) ∧
    (get_pending_notifications db user none none now =
      get_pending_notifications db user (some 300) none now) ∧
    (∀ sw : Int, get_pending_notifications db user none (some sw) now =
      get_pending_notifications db user (some sw) (some sw) now) := by
  refine ⟨?_, ?_, rfl, fun sw => rfl⟩
  · intro n
    simp only [get_pending_notifications, List.mem_insertionSort,
      List.mem_filter, Bool.and_eq_true,
      beq_iff_eq, Bool.not_eq_true', decide_eq_true_eq]
    tauto
  · exact List.sorted_insertionSort notifLE _

/-- `earliestJoined` returns `none` only on the empty list. -/
theorem earliestJoined_eq_none :
    ∀ l : List UserRec, earliestJoined l = none → l = [] := by
  intro l
  cases l with
  | nil => intro _; rfl
  | cons b l' =>
    intro h
    rw [earliestJoined] at h
    rcases he : earliestJoined l' with _ | w
    · simp only [he] at h
      exact Option.noConfusion h
    · simp only [he] at h
      exact Option.noConfusion h

/-- `earliestJoined` returns an element of the list that joined no later
than any other. -/
theorem earliestJoined_spec :
    ∀ (l : List UserRec) (u : UserRec), earliestJoined l = some u →
      u ∈ l ∧ ∀ v ∈ l, u.dateJoined ≤ v.dateJoined := by
  intro l
  induction l with
  | nil => intro u h; exact absurd h (by simp [earliestJoined])
  | cons a l ih =>
    intro u h
    rw [earliestJoined] at h
    rcases he : earliestJoined l with _ | v
    · simp only [he, Option.some_inj] at h
      subst h
      have hl : l = [] := earliestJoined_eq_none l he
      subst hl
      refine ⟨List.mem_cons_self _ _, ?_⟩
      intro v hv
      rcases List.mem_cons.mp hv with rfl | hv'
      · exact le_refl _
      · exact absurd hv' (List.not_mem_nil v)
    · simp only [he, Option.some_inj] at h
      obtain ⟨hv_mem, hv_min⟩ := ih v he
      by_cases hlt : v.dateJoined < a.dateJoined
      · rw [if_pos hlt] at h
        subst h
        refine ⟨List.mem_cons_of_mem a hv_mem, ?_⟩
        intro x hx
        rcases List.mem_cons.mp hx with rfl | hx'
        · exact le_of_lt hlt
        · exact hv_min x hx'
      · rw [if_neg hlt] at h
        subst h
        refine ⟨List.mem_cons_self a l, ?_⟩
        intro x hx
        rcases List.mem_cons.mp hx with rfl | hx'
        · exact le_refl _
        · exact le_trans (Nat.le_of_not_lt hlt) (hv_min x hx')

/-- `earliestJoined` finds a user in any nonempty list. -/
theorem earliestJoined_isSome (a : UserRec) (l : List UserRec) :
    ∃ u, earliestJoined (a :: l) = some u := by
  rw [earliestJoined]
  rcases earliestJoined l with _ | v
  · exact ⟨a, rfl⟩
  · exact ⟨if v.dateJoined < a.dateJoined then v else a, rfl⟩

/-- **C5.** For an unlinked Google login: a unique (nonempty) email match is
linked silently; no match defers to account creation; several matches link
the earliest-joined matching account (anomaly branch) and the handler never
reaches the no-user fallback; a missing email — `None` or the falsy empty
string — aborts linking. -/
theorem claim_C5 (userTable : List UserRec) (sl : SocialLogin) :
    (sl.isExisting = true →
      pre_social_login userTable sl = LinkResult.alreadyLinked) ∧
    (sl.isExisting = false → sl.provider = "google" → sl.email = none →
      pre_social_login userTable sl = LinkResult.abortedNoEmail) ∧
    (sl.isExisting = false → sl.provider = "google" → sl.email = some "" →
      pre_social_login userTable sl = LinkResult.abortedNoEmail) ∧
    (∀ e, sl.isExisting = false → sl.provider = "google" →
      sl.email = some e → e ≠ "" →
      (userTable.filter (fun v => v.email == e) = [] →
        pre_social_login userTable sl = LinkResult.deferToCreation) ∧
      (∀ u, userTable.filter (fun v => v.email == e) = [u] →
        pre_social_login userTable sl = LinkResult.linked u.username) ∧
      (∀ u v rest, userTable.filter (fun v => v.email == e) = u :: v :: rest →
        ∀ w, earliestJoined (u :: v :: rest) = some w →
          pre_social_login userTable sl = LinkResult.linkedAnomaly w.username ∧
            w ∈ userTable.filter (fun v => v.email == e) ∧
            ∀ x ∈ userTable.filter (fun v => v.email == e),
              w.dateJoined ≤ x.dateJoined)) ∧
    pre_social_login userTable sl ≠ LinkResult.anomalyNoUser := by
  refine ⟨?_, ?_, ?_, ?_, ?_⟩
  · intro h
    simp [pre_social_login, h]
  · intro hex hprov hemail
    simp [pre_social_login, hex, hprov, hemail]
  · intro hex hprov hemail
    simp [pre_social_login, hex, hprov, hemail]
  · intro e hex hprov hemail he
    refine ⟨?_, ?_, ?_⟩
    · intro hf
      simp [pre_social_login, hex, hprov, hemail, he, hf]
    · intro u hf
      simp [pre_social_login, hex, hprov, hemail, he, hf]
    · intro u v rest hf w hw
      refine ⟨?_, ?_, ?_⟩
      · simp only [pre_social_login, hex, Bool.false_eq_true, if_false,
          hprov, eq_self_iff_true, if_true, hemail, he, hf, hw]
      · exact hf ▸ (earliestJoined_spec _ w hw).1
      · intro x hx
        exact (earliestJoined_spec _ w hw).2 x (hf ▸ hx)
  · rcases hex : sl.isExisting with _ | _
    · rcases hemail : (if sl.provider = "google" then sl.email else none) with
        _ | e
      · simp [pre_social_login, hex, hemail]
      · by_cases he : e = ""
        · simp [pre_social_login, hex, hemail, he]
        · rcases hf : userTable.filter (fun v => v.email == e) with
            _ | ⟨u, _ | ⟨v, rest⟩⟩
          · simp [pre_social_login, hex, hemail, he, hf]
          · simp [pre_social_login, hex, hemail, he, hf]
          · obtain ⟨w, hw⟩ := earliestJoined_isSome u (v :: rest)
            simp [pre_social_login, hex, hemail, he, hf, hw]
    · simp [pre_social_login, hex]

/-- Witness for C5 on the sample table: the unique email links `"u1"`, an
unknown email defers, a missing email aborts, an empty (falsy) email aborts,
and a duplicated email links the earliest-joined `"u2"`. -/
theorem claim_C5_witness :
    pre_social_login sampleUsers
      { isExisting := false, provider := "google",
        email := some "a@x.com" } = LinkResult.linked "u1" ∧
    pre_social_login sampleUsers
      { isExisting := false, provider := "google",
        email := some "c@x.com" } = LinkResult.deferToCreation ∧
    pre_social_login sampleUsers
      { isExisting := false, provider := "google", email := none } =
      LinkResult.abortedNoEmail ∧
    pre_social_login sampleUsers
      { isExisting := false, provider := "google", email := some "" } =
      LinkResult.abortedNoEmail ∧
    pre_social_login sampleUsers
      { isExisting := false, provider := "google",
        email := some "b@x.com" } = LinkResult.linkedAnomaly "u2" := by
  refine ⟨?_, ?_, ?_, ?_, ?_⟩
  · exact (((claim_C5 sampleUsers _).2.2.2.1 "a@x.com" rfl rfl rfl
      (by decide)).2.1
      { username := "u1", email := "a@x.com", dateJoined := 5 } (by decide))
  · exact ((claim_C5 sampleUsers _).2.2.2.1 "c@x.com" rfl rfl rfl
      (by decide)).1 (by decide)
  · exact (claim_C5 sampleUsers _).2.1 rfl rfl rfl
  · exact (claim_C5 sampleUsers _).2.2.1 rfl rfl rfl
  · exact (((claim_C5 sampleUsers _).2.2.2.1 "b@x.com" rfl rfl rfl
      (by decide)).2.2
      { username := "u2", email := "b@x.com", dateJoined := 3 }
      { username := "u3", email := "b@x.com", dateJoined := 9 } [] (by decide)
      { username := "u2", email := "b@x.com", dateJoined := 3 } (by decide)).1

/-- A character whose code point is outside `[65, 90]` is not upper case. -/
theorem char_notUpper_of_toNat (c : Char)
    (h : ¬(65 ≤ c.toNat ∧ c.toNat ≤ 90)) : c.isUpper = false := by
  cases hu : c.isUpper
  · rfl
  · exfalso
    rw [Char.isUpper] at hu
    simp only [Bool.and_eq_true, decide_eq_true_eq] at hu
    exact h ⟨UInt32.le_toNat_of_le (by decide) hu.1,
      UInt32.toNat_le_of_le (by decide) hu.2⟩

/-- `Char.toLower` never returns an upper-case character. -/
theorem toLower_isUpper (c : Char) : (Char.toLower c).isUpper = false := by
  simp only [Char.toLower]
  by_cases h : c.toNat ≥ 65 ∧ c.toNat ≤ 90
  · rw [if_pos h]
    obtain ⟨h1, h2⟩ := h
    obtain ⟨n, hn⟩ : ∃ n, c.toNat = n := ⟨c.toNat, rfl⟩
    rw [hn] at h1 h2 ⊢
    interval_cases n <;> decide
  · rw [if_neg h]
    exact char_notUpper_of_toNat c h

/-- Digits are not upper-case characters. -/
theorem isDigit_notUpper (c : Char) (h : c.isDigit = true) :
    c.isUpper = false := by
  apply char_notUpper_of_toNat
  rw [Char.isDigit] at h
  simp only [Bool.and_eq_true, decide_eq_true_eq] at h
  have h57 : c.toNat ≤ 57 := UInt32.toNat_le_of_le (by decide) h.2
  omega

/-- Digits are word characters. -/
theorem isDigit_isWordChar (c : Char) (h : c.isDigit = true) :
    isWordChar c = true := by
  rw [isWordChar, Char.isAlphanum]
  simp [h]

/-- Lower-casing a whitespace character never yields a word character. -/
theorem whitespace_not_word (c : Char) (h : c.isWhitespace = true) :
    isWordChar (Char.toLower c) = false := by
  rw [Char.isWhitespace] at h
  simp only [Bool.or_eq_true, decide_eq_true_eq] at h
  rcases h with ((rfl | rfl) | rfl) | rfl <;> decide

/-- Every character of the base username is a non-upper word character. -/
theorem usernameBase_chars (s : String) :
    ∀ c ∈ (usernameBase s).data, isWordChar c = true ∧ c.isUpper = false := by
  intro c hc
  have hdata : (usernameBase s).data =
      (if cleanCandidate s = "" then "user" else cleanCandidate s).data.take 25 :=
    rfl
  rw [hdata] at hc
  have hc' := List.take_subset 25 _ hc
  by_cases hcl : cleanCandidate s = ""
  · rw [if_pos hcl] at hc'
    have : c = 'u' ∨ c = 's' ∨ c = 'e' ∨ c = 'r' := by
      simpa [List.mem_cons, or_comm, or_left_comm] using hc'
    rcases this with rfl | rfl | rfl | rfl <;> exact ⟨by decide, by decide⟩
  · rw [if_neg hcl] at hc'
    have hdata2 : (cleanCandidate s).data =
        (s.data.map Char.toLower).filter isWordChar := rfl
    rw [hdata2] at hc'
    have h1 : isWordChar c = true := List.of_mem_filter hc'
    have h2 : c ∈ s.data.map Char.toLower := List.mem_of_mem_filter hc'
    obtain ⟨x, _, rfl⟩ := List.mem_map.mp h2
    exact ⟨h1, toLower_isUpper x⟩

/-- Any name the suffix search returns is the base followed by a decimal
number. -/
theorem trySuffix_shape (existing : List String) (base : String) :
    ∀ (fuel start : Nat) (c : String),
      trySuffix existing base fuel start = some c →
      ∃ i, c = base ++ Nat.repr i := by
  intro fuel
  induction fuel with
  | zero =>
    intro start c h
    exact absurd h (by simp [trySuffix])
  | succ fuel ih =>
    intro start c h
    rw [trySuffix] at h
    by_cases hmem : base ++ Nat.repr start ∈ existing
    · rw [if_pos hmem] at h
      exact ih (start + 1) c h
    · rw [if_neg hmem] at h
      cases h
      exact ⟨start, rfl⟩

/-- The suffix search returns the first free candidate. -/
theorem trySuffix_finds (existing : List String) (base : String) :
    ∀ (fuel start i : Nat), start ≤ i → i < start + fuel →
      base ++ Nat.repr i ∉ existing →
      (∀ j, start ≤ j → j < i → base ++ Nat.repr j ∈ existing) →
      trySuffix existing base fuel start = some (base ++ Nat.repr i) := by
  intro fuel
  induction fuel with
  | zero =>
    intro start i h1 h2 _ _
    exact absurd h1 (by omega)
  | succ fuel ih =>
    intro start i h1 h2 h3 h4
    rw [trySuffix]
    by_cases hs : start = i
    · subst hs
      rw [if_neg h3]
    · have hlt : start < i := lt_of_le_of_ne h1 hs
      rw [if_pos (h4 start (le_refl _) hlt)]
      exact ih (start + 1) i hlt (by omega) h3
        (fun j hj1 hj2 => h4 j (by omega) hj2)

/-- The suffix search fails when every candidate in range is taken. -/
theorem trySuffix_exhausted (existing : List String) (base : String) :
    ∀ (fuel start : Nat),
      (∀ j, start ≤ j → j < start + fuel → base ++ Nat.repr j ∈ existing) →
      trySuffix existing base fuel start = none := by
  intro fuel
  induction fuel with
  | zero => intro start _; rfl
  | succ fuel ih =>
    intro start h
    rw [trySuffix, if_pos (h start (le_refl _) (by omega))]
    exact ih (start + 1) (fun j hj1 hj2 => h j (by omega) (by omega))

/-- The digit-string builder only emits decimal digit characters. -/
theorem toDigitsCore_digits :
    ∀ (fuel n : Nat) (acc : List Char), (∀ c ∈ acc, c.isDigit = true) →
      ∀ c ∈ Nat.toDigitsCore 10 fuel n acc, c.isDigit = true := by
  intro fuel
  induction fuel with
  | zero => intro n acc hacc c hc; exact hacc c hc
  | succ fuel ih =>
    intro n acc hacc c hc
    simp only [Nat.toDigitsCore] at hc
    have hd : (Nat.digitChar (n % 10)).isDigit = true := by
      have hlt : n % 10 < 10 := Nat.mod_lt _ (by decide)
      obtain ⟨d, hdn⟩ : ∃ d, n % 10 = d := ⟨_, rfl⟩
      rw [hdn] at hlt ⊢
      interval_cases d <;> decide
    have hcons : ∀ x ∈ Nat.digitChar (n % 10) :: acc, x.isDigit = true := by
      intro x hx
      rcases List.mem_cons.mp hx with rfl | hx'
      · exact hd
      · exact hacc x hx'
    by_cases hz : n / 10 = 0
    · rw [if_pos hz] at hc
      exact hcons c hc
    · rw [if_neg hz] at hc
      exact ih (n / 10) _ hcons c hc

/-- Every character of `Nat.repr` is a decimal digit. -/
theorem repr_digits (n : Nat) : ∀ c ∈ (Nat.repr n).data, c.isDigit = true :=
  fun c hc =>
    toDigitsCore_digits (n + 1) n []
      (fun x hx => absurd hx (List.not_mem_nil x)) c hc

/-- **C4.** The generated username consists only of non-upper-case word
characters (given a digit timestamp); a whitespace-only candidate yields the
base `"user"`; a non-colliding base is returned unchanged; a colliding base
gets the smallest unused suffix in 1..999; with all suffixes taken the
15-character base prefix plus underscore plus timestamp is returned. -/
theorem claim_C4 (existing : List String) (candidate timestamp : String) :
    ((∀ c ∈ timestamp.data, c.isDigit = true) →
      ∀ c ∈ (generate_unique_username existing candidate timestamp).data,
        isWordChar c = true ∧ c.isUpper = false) ∧
    ((∀ c ∈ candidate.data, c.isWhitespace = true) →
      usernameBase candidate = "user") ∧
    (usernameBase candidate ∉ existing →
      generate_unique_username existing candidate timestamp =
        usernameBase candidate) ∧
    (usernameBase candidate ∈ existing →
      ∀ i, 1 ≤ i → i ≤ 999 →
        usernameBase candidate ++ Nat.repr i ∉ existing →
        (∀ j, 1 ≤ j → j < i →
          usernameBase candidate ++ Nat.repr j ∈ existing) →
        generate_unique_username existing candidate timestamp =
          usernameBase candidate ++ Nat.repr i) ∧
    (usernameBase candidate ∈ existing →
      (∀ i, 1 ≤ i → i ≤ 999 →
        usernameBase candidate ++ Nat.repr i ∈ existing) →
      generate_unique_username existing candidate timestamp =
        (⟨(usernameBase candidate).data.take 15⟩ : String) ++ "_" ++
          timestamp) := by
  refine ⟨?_, ?_, ?_, ?_, ?_⟩
  · intro hts c hc
    simp only [generate_unique_username] at hc
    by_cases hex : usernameBase candidate ∉ existing
    · rw [if_pos hex] at hc
      exact usernameBase_chars candidate c hc
    · rw [if_neg hex] at hc
      rcases htry : trySuffix existing (usernameBase candidate) 999 1 with
        _ | cand
      · simp only [htry] at hc
        have hsplit :
            ((⟨(usernameBase candidate).data.take 15⟩ : String) ++ "_" ++
              timestamp).data =
            ((usernameBase candidate).data.take 15 ++ "_".data) ++
              timestamp.data := rfl
        rw [hsplit] at hc
        rcases List.mem_append.mp hc with hc1 | hc2
        · rcases List.mem_append.mp hc1 with hc3 | hc4
          · exact usernameBase_chars candidate c (List.take_subset 15 _ hc3)
          · have : c = '_' := by simpa using hc4
            subst this
            exact ⟨by decide, by decide⟩
        · exact ⟨isDigit_isWordChar c (hts c hc2),
            isDigit_notUpper c (hts c hc2)⟩
      · simp only [htry] at hc
        obtain ⟨i, rfl⟩ :=
          trySuffix_shape existing (usernameBase candidate) 999 1 cand htry
        have hsplit : (usernameBase candidate ++ Nat.repr i).data =
            (usernameBase candidate).data ++ (Nat.repr i).data := rfl
        rw [hsplit] at hc
        rcases List.mem_append.mp hc with hc1 | hc2
        · exact usernameBase_chars candidate c hc1
        · exact ⟨isDigit_isWordChar c (repr_digits i c hc2),
            isDigit_notUpper c (repr_digits i c hc2)⟩
  · intro hws
    have hclean : cleanCandidate candidate = "" := by
      have hnil : (candidate.data.map Char.toLower).filter isWordChar = [] := by
        rw [List.filter_eq_nil_iff]
        intro a ha
        obtain ⟨x, hx, rfl⟩ := List.mem_map.mp ha
        simp [whitespace_not_word x (hws x hx)]
      exact congrArg String.mk hnil
    simp only [usernameBase, hclean]
    decide
  · intro h
    simp only [generate_unique_username]
    rw [if_pos h]
  · intro hbase i h1 h2 hfree hprev
    simp only [generate_unique_username]
    rw [if_neg (not_not_intro hbase),
      trySuffix_finds existing (usernameBase candidate) 999 1 i h1 (by omega)
        hfree (fun j hj1 hj2 => hprev j hj1 hj2)]
  · intro hbase hall
    simp only [generate_unique_username]
    rw [if_neg (not_not_intro hbase),
      trySuffix_exhausted existing (usernameBase candidate) 999 1
        (fun j hj1 hj2 => hall j hj1 (by omega))]

/-- Witness for C4: candidate `"Bob!"` cleans to base `"bob"`; with no
collision the base is returned, with `"bob"`, `"bob1"`, `"bob2"` taken the
generator returns `"bob" ++ Nat.repr 3`; a whitespace candidate yields
`"user"`; the output characters are lowercase word characters. -/
theorem claim_C4_witness :
    (isWordChar 'b' = true ∧ 'b'.isUpper = false) ∧
    usernameBase "  " = "user" ∧
    generate_unique_username ["x"] "Bob!" "20240101" = usernameBase "Bob!" ∧
    generate_unique_username ["bob", "bob1", "bob2"] "Bob!" "20240101" =
      usernameBase "Bob!" ++ Nat.repr 3 :=
  ⟨(claim_C4 ["bob", "bob1", "bob2"] "Bob!" "20240101").1 (by decide) 'b'
      (by decide),
    (claim_C4 [] "  " "x").2.1 (by decide),
    (claim_C4 ["x"] "Bob!" "20240101").2.2.1 (by decide),
    (claim_C4 ["bob", "bob1", "bob2"] "Bob!" "20240101").2.2.2.1 (by decide) 3
      (by decide) (by decide) (by decide)
      (by intro j h1 h2; interval_cases j <;> decide)⟩

end ProjectCollab
